import Mathlib

/-!
Shallow embedding of the spiminator MIPS-like emulator.

Source layout:
* `src/emulator.rs` — the raw-word engine: `Computer` (regs, program, pc, mem),
  `Computer::run`, `Computer::try_handle_insn`, register accessors
  `ru`/`ri`/`ru_mut`/`ri_mut`, the word-field accessors on `Insn`, and the
  `Opcode`/`Funct`/`SyscallCode`/`InsnError` enumerations.
* `src/lib.rs` — the pre-decoded engine: `Cpu` (regs, pc),
  `Cpu::try_handle_insn_reg`, `Cpu::try_handle_insn_imm`, with `RegInsn`,
  `ImmInsn`, `RegFunc`, `ImmOpcode`, and its own two-variant `InsnError`.

Machine integers are modelled as `Nat` (u32, values reduced mod 2^32 where the
source wraps) and `Int` (i32, obtained by two's-complement reinterpretation).
Rust's release-mode semantics is used for the shift operators: the shift
amount of `<<`/`>>` is masked to the low 5 bits (`wrapping_shl`/`wrapping_shr`
behaviour); debug-mode Rust instead panics on a shift amount ≥ 32, which is
captured separately by `shlU32Checked` where a claim depends on it.

Two transcription notes, visible when diffing against the source:
* `emulator.rs` lines 48 and 59 (`Funct::AddU`/`Funct::SubU`) write through
  `self.ru_mut(insn.rd())` without the `?` operator; that expression does not
  type-check in Rust (`Result` is not a place), and every sibling arm uses
  `?`, so the arms are embedded with the error propagated, as in the other
  arms.
* `lib.rs` gives `Cpu::try_handle_insn_*` the signature
  `&mut self -> Result<(), InsnError>`; the embedding returns the pair of the
  `Result` and the updated state, so that partially-mutated-then-fault states
  remain observable.
-/

/-- Two's-complement reinterpretation of a u32 bit pattern as an i32
(`transmute::<u32, i32>` in `emulator.rs` lines 95-97). -/
def toI32 (n : Nat) : Int :=
  if n < 2 ^ 31 then (n : Int) else (n : Int) - 2 ^ 32

/-- Bit pattern of an i32 value as a u32 (`transmute::<i32, u32>`). -/
def ofI32 (i : Int) : Nat :=
  (i % 2 ^ 32).toNat

/-- `i32::overflowing_add`: the wrapped sum and the signed-overflow flag. -/
def overflowingAddI32 (a b : Int) : Int × Bool :=
  (toI32 (ofI32 (a + b)), decide (a + b < -(2 ^ 31) ∨ 2 ^ 31 ≤ a + b))

/-- `i32::overflowing_sub`: the wrapped difference and the signed-overflow flag. -/
def overflowingSubI32 (a b : Int) : Int × Bool :=
  (toI32 (ofI32 (a - b)), decide (a - b < -(2 ^ 31) ∨ 2 ^ 31 ≤ a - b))

/-- `u32::overflowing_add`: the wrapped sum and the carry flag. -/
def overflowingAddU32 (a b : Nat) : Nat × Bool :=
  ((a + b) % 2 ^ 32, decide (2 ^ 32 ≤ a + b))

/-- `u32::overflowing_sub`: the wrapped difference and the borrow flag
(operands are u32 values, i.e. below 2^32). -/
def overflowingSubU32 (a b : Nat) : Nat × Bool :=
  ((a + 2 ^ 32 - b) % 2 ^ 32, decide (a < b))

/-- Arithmetic (sign-propagating) right shift of an i32: floor division by a
power of two, which is `i32::>>` in Rust. -/
def sraI32 (a : Int) (sh : Nat) : Int :=
  Int.fdiv a (2 ^ sh)

/-- Debug-mode Rust `u32::<<`: defined only for shift amounts below the bit
width; a larger amount panics ("attempt to shift left with overflow"). -/
def shlU32Checked (a sh : Nat) : Option Nat :=
  if sh < 32 then some ((a <<< sh) % 2 ^ 32) else none

/-- The `Opcode` enumeration of `emulator.rs` lines 155-165. -/
inductive Opcode where
  | reg
  | addI
  | addIU
  | andI
  | orI
  | xorI
  | luI
deriving DecidableEq

/-- The `Funct` enumeration of `emulator.rs` lines 204-222. -/
inductive Funct where
  | sll
  | sllV
  | srl
  | srlV
  | sra
  | sraV
  | syscall
  | add
  | addU
  | sub
  | subU
  | and
  | or
  | xor
  | nor
deriving DecidableEq

/-- The `SyscallCode` enumeration of `emulator.rs` lines 224-228. -/
inductive SyscallCode where
  | exit
deriving DecidableEq

/-- The `InsnError` enumeration of `emulator.rs` lines 230-246. -/
inductive InsnError where
  | integerOverflow
  | regMutZero
  | invalidOpcode (raw : Nat)
  | invalidFunct (raw : Nat)
  | unsupportedSyscall (code : Nat)
deriving DecidableEq

/-- `Opcode::try_from_primitive`: the discriminants of `Opcode`. -/
def opcodeOfNat (n : Nat) : Option Opcode :=
  match n with
  | 0 => some .reg
  | 8 => some .addI
  | 9 => some .addIU
  | 12 => some .andI
  | 13 => some .orI
  | 14 => some .xorI
  | 15 => some .luI
  | _ => none

/-- `Funct::try_from_primitive`: the discriminants of `Funct`. -/
def functOfNat (n : Nat) : Option Funct :=
  match n with
  | 0 => some .sll
  | 4 => some .sllV
  | 2 => some .srl
  | 6 => some .srlV
  | 3 => some .sra
  | 7 => some .sraV
  | 12 => some .syscall
  | 32 => some .add
  | 33 => some .addU
  | 34 => some .sub
  | 35 => some .subU
  | 36 => some .and
  | 37 => some .or
  | 38 => some .xor
  | 39 => some .nor
  | _ => none

/-- `SyscallCode::try_from_primitive`: only `Exit = 10` is defined. -/
def syscallCodeOfNat (n : Nat) : Option SyscallCode :=
  if n = 10 then some .exit else none

/-- `Insn::opcode` (`emulator.rs` lines 118-120): bits [31:26], with
`InvalidOpcode` carrying the failing primitive. -/
def Insn.opcode (w : Nat) : Except InsnError Opcode :=
  match opcodeOfNat (w >>> 26) with
  | some o => .ok o
  | none => .error (.invalidOpcode (w >>> 26))

/-- `Insn::rs` (`emulator.rs` lines 122-124): bits [25:21]. -/
def Insn.rs (w : Nat) : Fin 32 :=
  ⟨(w >>> 21) % 32, Nat.mod_lt _ (by decide)⟩

/-- `Insn::rt` (`emulator.rs` lines 126-128): bits [20:16]. -/
def Insn.rt (w : Nat) : Fin 32 :=
  ⟨(w >>> 16) % 32, Nat.mod_lt _ (by decide)⟩

/-- `Insn::rd` (`emulator.rs` lines 130-132): bits [15:11]. -/
def Insn.rd (w : Nat) : Fin 32 :=
  ⟨(w >>> 11) % 32, Nat.mod_lt _ (by decide)⟩

/-- `Insn::shamt` (`emulator.rs` lines 134-136): bits [10:6]. -/
def Insn.shamt (w : Nat) : Nat :=
  (w >>> 6) % 32

/-- `Insn::funct` (`emulator.rs` lines 138-140): bits [5:0], with
`InvalidFunct` carrying the failing primitive. -/
def Insn.funct (w : Nat) : Except InsnError Funct :=
  match functOfNat (w % 64) with
  | some f => .ok f
  | none => .error (.invalidFunct (w % 64))

/-- `Insn::du` (`emulator.rs` lines 142-144): the zero-extended 16-bit
immediate, bits [15:0]. -/
def Insn.du (w : Nat) : Nat :=
  w % 65536

/-- `Insn::di` (`emulator.rs` lines 146-148): the immediate reinterpreted as
i32 after `(self.0 & 0xFFFF) | 0xFFFF0000` — the source ors the upper bits
with all-ones unconditionally, whatever bit 15 holds. -/
def Insn.di (w : Nat) : Int :=
  toI32 ((w % 65536) ||| 0xFFFF0000)

/-- The `Computer` machine state of `emulator.rs` lines 5-12: 32 registers,
the program (a vector of raw instruction words), the program counter (a
direct index into the program), and the sparse memory map. -/
structure Computer where
  regs : Fin 32 → Nat
  program : List Nat
  pc : Nat
  mem : Nat → Option Nat

/-- `Reg::V0`, the syscall-code register (index 2). -/
def regV0 : Fin 32 := 2

/-- `Computer::ru` (`emulator.rs` lines 91-93): unsigned register read. -/
def Computer.ru (c : Computer) (r : Fin 32) : Nat :=
  c.regs r

/-- `Computer::ri` (`emulator.rs` lines 95-97): signed register read, a
bit-pattern reinterpretation of the same storage. -/
def Computer.ri (c : Computer) (r : Fin 32) : Int :=
  toI32 (c.regs r)

/-- `Computer::ru_mut` (`emulator.rs` lines 99-104) combined with the
assignment through the returned reference: rejects register 0 with
`RegMutZero` before any mutation, otherwise stores the value. -/
def Computer.wu (c : Computer) (r : Fin 32) (v : Nat) : Except InsnError Computer :=
  if r = 0 then .error .regMutZero
  else .ok { c with regs := Function.update c.regs r v }

/-- `Computer::ri_mut` (`emulator.rs` lines 106-111) combined with the
assignment: stores the bit pattern of the signed value. -/
def Computer.wi (c : Computer) (r : Fin 32) (v : Int) : Except InsnError Computer :=
  c.wu r (ofI32 v)

/-- An execution-arm write of the shape `*self.ru_mut(rd)? = v`: on
`RegMutZero` the instruction aborts with the state untouched. -/
def Computer.writeStep (c : Computer) (ex : Bool) (r : Fin 32) (v : Nat) :
    Except InsnError Unit × Computer × Bool :=
  match c.wu r v with
  | .error e => (.error e, c, ex)
  | .ok c2 => (.ok (), c2, ex)

/-- A checked-arithmetic arm (`Add`/`Sub`/`AddI`/`AddIU`): the destination is
written first, then `IntegerOverflow` is returned if the overflow flag was
set — the write survives the fault, as in the source. -/
def Computer.writeChk (c : Computer) (ex : Bool) (r : Fin 32) (v : Nat) (overflow : Bool) :
    Except InsnError Unit × Computer × Bool :=
  match c.wu r v with
  | .error e => (.error e, c, ex)
  | .ok c2 => if overflow then (.error .integerOverflow, c2, ex) else (.ok (), c2, ex)

/-- The body of `Computer::try_handle_insn` (`emulator.rs` lines 23-84)
before the `self.pc += 1`: dispatch on opcode, then on funct for
register-type words, mutating registers and the exit flag. The state and
flag are returned alongside the `Result` so that mutate-then-fault arms are
observable. -/
def Computer.tryHandleInsnCore (c : Computer) (w : Nat) (ex : Bool) :
    Except InsnError Unit × Computer × Bool :=
  match Insn.opcode w with
  | .error e => (.error e, c, ex)
  | .ok .reg =>
    match Insn.funct w with
    | .error e => (.error e, c, ex)
    | .ok .sll => c.writeStep ex (Insn.rd w) ((c.ru (Insn.rt w) <<< Insn.shamt w) % 2 ^ 32)
    | .ok .sllV =>
      c.writeStep ex (Insn.rd w) ((c.ru (Insn.rt w) <<< (c.ru (Insn.rs w) % 32)) % 2 ^ 32)
    | .ok .srl => c.writeStep ex (Insn.rd w) (c.ru (Insn.rt w) >>> Insn.shamt w)
    | .ok .srlV => c.writeStep ex (Insn.rd w) (c.ru (Insn.rt w) >>> (c.ru (Insn.rs w) % 32))
    | .ok .sra => c.writeStep ex (Insn.rd w) (ofI32 (sraI32 (c.ri (Insn.rt w)) (Insn.shamt w)))
    | .ok .sraV =>
      c.writeStep ex (Insn.rd w) (ofI32 (sraI32 (c.ri (Insn.rt w)) (c.ru (Insn.rs w) % 32)))
    | .ok .syscall =>
      match syscallCodeOfNat (c.ru regV0) with
      | none => (.error (.unsupportedSyscall (c.ru regV0)), c, ex)
      | some .exit => (.ok (), c, true)
    | .ok .add =>
      c.writeChk ex (Insn.rd w)
        (ofI32 (overflowingAddI32 (c.ri (Insn.rs w)) (c.ri (Insn.rt w))).1)
        (overflowingAddI32 (c.ri (Insn.rs w)) (c.ri (Insn.rt w))).2
    | .ok .addU =>
      c.writeStep ex (Insn.rd w) (overflowingAddU32 (c.ru (Insn.rs w)) (c.ru (Insn.rt w))).1
    | .ok .sub =>
      c.writeChk ex (Insn.rd w)
        (ofI32 (overflowingSubI32 (c.ri (Insn.rs w)) (c.ri (Insn.rt w))).1)
        (overflowingSubI32 (c.ri (Insn.rs w)) (c.ri (Insn.rt w))).2
    | .ok .subU =>
      c.writeStep ex (Insn.rd w) (overflowingSubU32 (c.ru (Insn.rs w)) (c.ru (Insn.rt w))).1
    | .ok .and => c.writeStep ex (Insn.rd w) (c.ru (Insn.rs w) &&& c.ru (Insn.rt w))
    | .ok .or => c.writeStep ex (Insn.rd w) (c.ru (Insn.rs w) ||| c.ru (Insn.rt w))
    | .ok .xor => c.writeStep ex (Insn.rd w) (c.ru (Insn.rs w) ^^^ c.ru (Insn.rt w))
    | .ok .nor =>
      c.writeStep ex (Insn.rd w) ((c.ru (Insn.rs w) ||| c.ru (Insn.rt w)) ^^^ (2 ^ 32 - 1))
  | .ok .addI =>
    c.writeChk ex (Insn.rd w)
      (ofI32 (overflowingAddI32 (c.ri (Insn.rs w)) (Insn.di w)).1)
      (overflowingAddI32 (c.ri (Insn.rs w)) (Insn.di w)).2
  | .ok .addIU =>
    c.writeChk ex (Insn.rd w)
      (overflowingAddU32 (c.ru (Insn.rs w)) (Insn.du w)).1
      (overflowingAddU32 (c.ru (Insn.rs w)) (Insn.du w)).2
  | .ok .andI => c.writeStep ex (Insn.rd w) (c.ru (Insn.rs w) &&& Insn.du w)
  | .ok .orI => c.writeStep ex (Insn.rd w) (c.ru (Insn.rs w) ||| Insn.du w)
  | .ok .xorI => c.writeStep ex (Insn.rd w) (c.ru (Insn.rs w) ^^^ Insn.du w)
  | .ok .luI => c.writeStep ex (Insn.rd w) (Insn.du w <<< 16)

/-- `Computer::try_handle_insn` (`emulator.rs` lines 23-89): the dispatch
above followed by `self.pc += 1` on the success path; an error returns early
without advancing the program counter. -/
def Computer.tryHandleInsn (c : Computer) (w : Nat) (ex : Bool) :
    Except InsnError Unit × Computer × Bool :=
  match c.tryHandleInsnCore w ex with
  | (.error e, c2, ex2) => (.error e, c2, ex2)
  | (.ok _, c2, ex2) => (.ok (), { c2 with pc := c2.pc + 1 }, ex2)

/-- The `Cpu` state of `lib.rs` lines 1-4: 32 registers and a program
counter (never touched by the instruction handlers). -/
structure Cpu where
  regs : Fin 32 → Nat
  pc : Nat

/-- The `RegFunc` enumeration of `lib.rs` lines 121-138 — the register-type
operations of the pre-decoded engine; it has no `Syscall` variant. -/
inductive RegFunc where
  | sll
  | sllV
  | srl
  | srlV
  | sra
  | sraV
  | add
  | addU
  | sub
  | subU
  | and
  | or
  | xor
  | nor
deriving DecidableEq

/-- The `ImmOpcode` enumeration of `lib.rs` lines 148-157. -/
inductive ImmOpcode where
  | addI
  | addIU
  | andI
  | orI
  | xorI
  | luI
deriving DecidableEq

/-- The `InsnError` enumeration of `lib.rs` lines 97-104 (named apart from
the emulator's error type, as the two live in different modules). -/
inductive CpuInsnError where
  | integerOverflowException
  | dstRegZeroError
deriving DecidableEq

/-- `RegInsn` (`lib.rs` lines 112-119). `shamt` is a `u8` in the source;
values are `Nat` here, with bounds hypotheses where a claim needs them. -/
structure RegInsn where
  rs : Fin 32
  rt : Fin 32
  rd : Fin 32
  shamt : Nat
  funct : RegFunc

/-- `ImmInsn` (`lib.rs` lines 140-146). `data` is a `u16` in the source. -/
structure ImmInsn where
  opcode : ImmOpcode
  rs : Fin 32
  rt : Fin 32
  data : Nat

/-- Direct register store through `&mut self.regs[r as usize]` (no
zero-register guard at this level in `lib.rs`). -/
def Cpu.setReg (c : Cpu) (r : Fin 32) (v : Nat) : Cpu :=
  { c with regs := Function.update c.regs r v }

/-- `Cpu::try_handle_insn_reg` (`lib.rs` lines 14-63): an up-front
`DstRegZeroError` check on `rd`, then the operation on the unsigned or
signed view. As in `tryHandleInsnCore`, the state is returned beside the
`Result`, keeping mutate-then-fault arms observable. -/
def Cpu.tryHandleInsnReg (c : Cpu) (i : RegInsn) : Except CpuInsnError Unit × Cpu :=
  if i.rd = 0 then (.error .dstRegZeroError, c)
  else
    match i.funct with
    | .sll => (.ok (), c.setReg i.rd ((c.regs i.rt <<< (i.shamt % 32)) % 2 ^ 32))
    | .sllV => (.ok (), c.setReg i.rd ((c.regs i.rt <<< (c.regs i.rs % 32)) % 2 ^ 32))
    | .srl => (.ok (), c.setReg i.rd (c.regs i.rt >>> (i.shamt % 32)))
    | .srlV => (.ok (), c.setReg i.rd (c.regs i.rt >>> (c.regs i.rs % 32)))
    | .sra => (.ok (), c.setReg i.rd (ofI32 (sraI32 (toI32 (c.regs i.rt)) (i.shamt % 32))))
    | .sraV => (.ok (), c.setReg i.rd (ofI32 (sraI32 (toI32 (c.regs i.rt)) (c.regs i.rs % 32))))
    | .add =>
      let p := overflowingAddI32 (toI32 (c.regs i.rs)) (toI32 (c.regs i.rt))
      let c2 := c.setReg i.rd (ofI32 p.1)
      if p.2 then (.error .integerOverflowException, c2) else (.ok (), c2)
    | .addU => (.ok (), c.setReg i.rd (overflowingAddU32 (c.regs i.rs) (c.regs i.rt)).1)
    | .sub =>
      let p := overflowingSubI32 (toI32 (c.regs i.rs)) (toI32 (c.regs i.rt))
      let c2 := c.setReg i.rd (ofI32 p.1)
      if p.2 then (.error .integerOverflowException, c2) else (.ok (), c2)
    | .subU => (.ok (), c.setReg i.rd (overflowingSubU32 (c.regs i.rs) (c.regs i.rt)).1)
    | .and => (.ok (), c.setReg i.rd (c.regs i.rs &&& c.regs i.rt))
    | .or => (.ok (), c.setReg i.rd (c.regs i.rs ||| c.regs i.rt))
    | .xor => (.ok (), c.setReg i.rd (c.regs i.rs ^^^ c.regs i.rt))
    | .nor => (.ok (), c.setReg i.rd ((c.regs i.rs ||| c.regs i.rt) ^^^ (2 ^ 32 - 1)))

/-- `Cpu::try_handle_insn_imm` (`lib.rs` lines 65-94): the destination is
`rt`, written through `&mut self.regs[insn.rt as usize]` with no
zero-register check; `insn.data as i32` and `insn.data as u32` both
zero-extend the 16-bit datum. -/
def Cpu.tryHandleInsnImm (c : Cpu) (i : ImmInsn) : Except CpuInsnError Unit × Cpu :=
  match i.opcode with
  | .addI =>
    let p := overflowingAddI32 (toI32 (c.regs i.rs)) (Int.ofNat i.data)
    let c2 := c.setReg i.rt (ofI32 p.1)
    if p.2 then (.error .integerOverflowException, c2) else (.ok (), c2)
  | .addIU =>
    let p := overflowingAddU32 (c.regs i.rs) i.data
    let c2 := c.setReg i.rt p.1
    if p.2 then (.error .integerOverflowException, c2) else (.ok (), c2)
  | .andI => (.ok (), c.setReg i.rt (c.regs i.rs &&& i.data))
  | .orI => (.ok (), c.setReg i.rt (c.regs i.rs ||| i.data))
  | .xorI => (.ok (), c.setReg i.rt (c.regs i.rs ^^^ i.data))
  | .luI => (.ok (), c.setReg i.rt (i.data <<< 16))

theorem Computer.wu_ok_frame {c : Computer} {r : Fin 32} {v : Nat} {c2 : Computer}
    (h : c.wu r v = .ok c2) :
    c2.pc = c.pc ∧ c2.program = c.program ∧ c2.mem = c.mem := by
  unfold Computer.wu at h
  split at h
  · simp at h
  · simp only [Except.ok.injEq] at h
    subst h
    exact ⟨rfl, rfl, rfl⟩

theorem Computer.writeStep_frame {c : Computer} {ex : Bool} {r : Fin 32} {v : Nat}
    {res : Except InsnError Unit} {c2 : Computer} {ex2 : Bool}
    (h : c.writeStep ex r v = (res, c2, ex2)) :
    c2.pc = c.pc ∧ c2.program = c.program ∧ c2.mem = c.mem := by
  unfold Computer.writeStep at h
  split at h
  next e heq =>
    cases h
    exact ⟨rfl, rfl, rfl⟩
  next c3 heq =>
    cases h
    exact Computer.wu_ok_frame heq

theorem Computer.writeChk_frame {c : Computer} {ex : Bool} {r : Fin 32} {v : Nat} {ov : Bool}
    {res : Except InsnError Unit} {c2 : Computer} {ex2 : Bool}
    (h : c.writeChk ex r v ov = (res, c2, ex2)) :
    c2.pc = c.pc ∧ c2.program = c.program ∧ c2.mem = c.mem := by
  unfold Computer.writeChk at h
  split at h
  next e heq =>
    cases h
    exact ⟨rfl, rfl, rfl⟩
  next c3 heq =>
    split at h <;> (cases h; exact Computer.wu_ok_frame heq)

theorem Computer.core_frame {c : Computer} {w : Nat} {ex : Bool}
    {res : Except InsnError Unit} {c2 : Computer} {ex2 : Bool}
    (h : c.tryHandleInsnCore w ex = (res, c2, ex2)) :
    c2.pc = c.pc ∧ c2.program = c.program ∧ c2.mem = c.mem := by
  unfold Computer.tryHandleInsnCore at h
  split at h <;> try split at h <;> try split at h
  all_goals
    first
      | (cases h; exact ⟨rfl, rfl, rfl⟩)
      | exact Computer.writeStep_frame h
      | exact Computer.writeChk_frame h

theorem Computer.step_ok {c : Computer} {w : Nat} {ex : Bool} {c2 : Computer} {ex2 : Bool}
    (h : c.tryHandleInsn w ex = (.ok (), c2, ex2)) :
    c2.pc = c.pc + 1 ∧ c2.program = c.program ∧ c2.mem = c.mem := by
  unfold Computer.tryHandleInsn at h
  split at h
  next e c3 ex3 heq => simp at h
  next c3 ex3 heq =>
    cases h
    obtain ⟨h1, h2, h3⟩ := Computer.core_frame heq
    exact ⟨by rw [h1], h2, h3⟩

theorem Computer.step_err {c : Computer} {w : Nat} {ex : Bool} {e : InsnError}
    {c2 : Computer} {ex2 : Bool}
    (h : c.tryHandleInsn w ex = (.error e, c2, ex2)) :
    c2.pc = c.pc ∧ c2.program = c.program ∧ c2.mem = c.mem := by
  unfold Computer.tryHandleInsn at h
  split at h
  next e3 c3 ex3 heq =>
    cases h
    exact Computer.core_frame heq
  next c3 ex3 heq => simp at h

/-- The loop body of `Computer::run` (`emulator.rs` lines 15-21):
`while self.pc < self.program.len() && !exit`, propagating the first fault
(`?`) and otherwise iterating. The faulting machine state is returned
alongside the error, matching the surviving `&mut self` in Rust. -/
def Computer.runLoop (c : Computer) (ex : Bool) : Except InsnError Unit × Computer :=
  if h : c.pc < c.program.length ∧ ex = false then
    match hs : c.tryHandleInsn (c.program.get ⟨c.pc, h.1⟩) ex with
    | (.error e, c2, _) => (.error e, c2)
    | (.ok _, c2, ex2) => c2.runLoop ex2
  else
    (.ok (), c)
termination_by c.program.length - c.pc
decreasing_by
  obtain ⟨h1, h2, h3⟩ := Computer.step_ok hs
  rw [h1, h2]
  omega

/-- `Computer::run` (`emulator.rs` lines 15-21): the driver loop started
with `exit = false`. -/
def Computer.run (c : Computer) : Except InsnError Unit × Computer :=
  c.runLoop false

deriving instance DecidableEq for Except

/-- A decoded register-type or immediate-type instruction, as assembled by
the decode phase of `Computer::try_handle_insn`: the opcode/funct dispatch of
`emulator.rs` lines 24-25 together with the operand-field accessors the arms
use (`rs`, `rt`, `rd`, `shamt`, `du`). -/
inductive Decoded where
  | reg (rs rt rd : Fin 32) (shamt : Nat) (f : Funct)
  | imm (op : Opcode) (rs rd : Fin 32) (datum : Nat)
deriving DecidableEq

/-- The decode phase of `Computer::try_handle_insn`: `insn.opcode()?` first,
then `insn.funct()?` when the opcode is register-type; no other error can
arise while decoding (the register fields are total). -/
def decode (w : Nat) : Except InsnError Decoded :=
  match Insn.opcode w with
  | .error e => .error e
  | .ok .reg =>
    match Insn.funct w with
    | .error e => .error e
    | .ok f => .ok (.reg (Insn.rs w) (Insn.rt w) (Insn.rd w) (Insn.shamt w) f)
  | .ok op => .ok (.imm op (Insn.rs w) (Insn.rd w) (Insn.du w))

theorem opcodeOfNat_none_iff (n : Nat) :
    opcodeOfNat n = none ↔ n ∉ ([0, 8, 9, 12, 13, 14, 15] : List Nat) := by
  unfold opcodeOfNat
  split <;> simp_all

theorem functOfNat_none_iff (n : Nat) :
    functOfNat n = none ↔
      n ∉ ([0, 4, 2, 6, 3, 7, 12, 32, 33, 34, 35, 36, 37, 38, 39] : List Nat) := by
  unfold functOfNat
  split <;> simp_all

theorem opcodeOfNat_reg_iff (n : Nat) : opcodeOfNat n = some .reg ↔ n = 0 := by
  unfold opcodeOfNat
  split <;> simp_all

set_option maxRecDepth 8192

/-- C5: for every word, the decode phase fails with `InvalidOpcode` carrying
bits [31:26] exactly when those bits are none of the seven known opcodes, and
fails with `InvalidFunct` carrying bits [5:0] exactly when the opcode bits
are 0 (register-type) and the funct bits are none of the fifteen known
functs; the word 0 decodes to shift-left-logical with shamt 0 and all
register fields equal to register 0. -/
theorem C5_decoder_error_conditions :
    (∀ w : Nat,
      ((decode w = .error (.invalidOpcode (w >>> 26))) ↔
        (w >>> 26) ∉ ([0, 8, 9, 12, 13, 14, 15] : List Nat)) ∧
      ((decode w = .error (.invalidFunct (w % 64))) ↔
        (w >>> 26) = 0 ∧
          (w % 64) ∉ ([0, 4, 2, 6, 3, 7, 12, 32, 33, 34, 35, 36, 37, 38, 39] : List Nat))) ∧
    decode 0 = .ok (.reg 0 0 0 0 .sll) := by
  refine ⟨fun w => ⟨?_, ?_⟩, by decide⟩
  · rw [← opcodeOfNat_none_iff]
    unfold decode Insn.opcode
    cases hop : opcodeOfNat (w >>> 26) with
    | none => simp
    | some o =>
      cases o <;> simp [hop] <;>
        (cases hf : functOfNat (w % 64) <;> simp [Insn.funct, hf])
  · rw [← functOfNat_none_iff, ← opcodeOfNat_reg_iff]
    unfold decode Insn.opcode
    cases hop : opcodeOfNat (w >>> 26) with
    | none => simp [hop]
    | some o =>
      cases o <;> simp [hop] <;>
        (cases hf : functOfNat (w % 64) <;> simp [Insn.funct, hf])

/-- C3: `Insn::di` ors `0xFFFF0000` into bits [31:16] unconditionally, so it
is not a sign extension. At the word `0x00000001` the immediate's bit 15 is
0, yet the signed immediate evaluates to `-65535`, not the zero-extended
(and non-negative) value `1` the claim requires. -/
theorem C3_di_one_extension_bug :
    Insn.di 0x00000001 = -65535 ∧ Insn.di 0x00000001 ≠ ((Insn.du 0x00000001 : Nat) : Int) ∧
      Insn.di 0x00000001 < 0 := by decide

/-- Machine state for the concrete overflow instances of C4: `$t0` (reg 8)
holds `0x7FFFFFFF`, `$t1` (reg 9) holds 1, everything else 0. -/
def overflowComputer : Computer :=
  ⟨fun i => if i = 8 then 0x7FFFFFFF else if i = 9 then 1 else 0, [], 0, fun _ => none⟩

/-- The word `add $t2, $t0, $t1`: opcode 0, rs 8, rt 9, rd 10, funct 32. -/
def wAddT2 : Nat := 8 * 2 ^ 21 + 9 * 2 ^ 16 + 10 * 2 ^ 11 + 32

/-- The word `addu $t2, $t0, $t1`: opcode 0, rs 8, rt 9, rd 10, funct 33. -/
def wAddUT2 : Nat := 8 * 2 ^ 21 + 9 * 2 ^ 16 + 10 * 2 ^ 11 + 33

/-- C4: with a non-zero destination, register-type checked `Add`/`Sub`
return `IntegerOverflow` exactly when the signed sum/difference leaves the
i32 range, while `AddU`/`SubU` always succeed and write the wrapped modulo
2^32 result; concretely, `rs = 0x7FFFFFFF`, `rt = 1`: checked add faults
with `IntegerOverflow` and add-unsigned succeeds writing `0x80000000`. -/
theorem C4_overflow_semantics :
    (∀ (c : Computer) (w : Nat) (ex : Bool),
      Insn.opcode w = .ok .reg → Insn.rd w ≠ 0 →
      (Insn.funct w = .ok .add →
        (((c.tryHandleInsn w ex).1 = .error .integerOverflow) ↔
          (c.ri (Insn.rs w) + c.ri (Insn.rt w) < -(2 ^ 31) ∨
            2 ^ 31 ≤ c.ri (Insn.rs w) + c.ri (Insn.rt w)))) ∧
      (Insn.funct w = .ok .sub →
        (((c.tryHandleInsn w ex).1 = .error .integerOverflow) ↔
          (c.ri (Insn.rs w) - c.ri (Insn.rt w) < -(2 ^ 31) ∨
            2 ^ 31 ≤ c.ri (Insn.rs w) - c.ri (Insn.rt w)))) ∧
      (Insn.funct w = .ok .addU →
        (c.tryHandleInsn w ex).1 = .ok () ∧
          (c.tryHandleInsn w ex).2.1.regs (Insn.rd w) =
            (c.ru (Insn.rs w) + c.ru (Insn.rt w)) % 2 ^ 32) ∧
      (Insn.funct w = .ok .subU →
        (c.tryHandleInsn w ex).1 = .ok () ∧
          (c.tryHandleInsn w ex).2.1.regs (Insn.rd w) =
            (c.ru (Insn.rs w) + 2 ^ 32 - c.ru (Insn.rt w)) % 2 ^ 32)) ∧
    (overflowComputer.tryHandleInsn wAddT2 false).1 = .error .integerOverflow ∧
    (overflowComputer.tryHandleInsn wAddUT2 false).1 = .ok () ∧
    (overflowComputer.tryHandleInsn wAddUT2 false).2.1.regs 10 = 0x80000000 := by
  refine ⟨fun c w ex hop hrd => ⟨?_, ?_, ?_, ?_⟩, by decide, by decide, by decide⟩
  · intro hf
    by_cases hov : c.ri (Insn.rs w) + c.ri (Insn.rt w) < -2147483648 ∨
        2147483648 ≤ c.ri (Insn.rs w) + c.ri (Insn.rt w) <;>
      simp [Computer.tryHandleInsn, Computer.tryHandleInsnCore, hop, hf,
        Computer.writeChk, Computer.wu, hrd, overflowingAddI32, hov]
  · intro hf
    by_cases hov : c.ri (Insn.rs w) - c.ri (Insn.rt w) < -2147483648 ∨
        2147483648 ≤ c.ri (Insn.rs w) - c.ri (Insn.rt w) <;>
      simp [Computer.tryHandleInsn, Computer.tryHandleInsnCore, hop, hf,
        Computer.writeChk, Computer.wu, hrd, overflowingSubI32, hov]
  · intro hf
    simp [Computer.tryHandleInsn, Computer.tryHandleInsnCore, hop, hf,
      Computer.writeStep, Computer.wu, hrd, overflowingAddU32, Computer.ru]
  · intro hf
    simp [Computer.tryHandleInsn, Computer.tryHandleInsnCore, hop, hf,
      Computer.writeStep, Computer.wu, hrd, overflowingSubU32, Computer.ru]

/-- C4 witness: the general statement instantiated at the concrete overflow
state, all hypotheses discharged by evaluation. -/
theorem C4_overflow_semantics_witness :
    (overflowComputer.tryHandleInsn wAddT2 false).1 = .error .integerOverflow :=
  ((C4_overflow_semantics.1 overflowComputer wAddT2 false (by decide) (by decide)).1
    (by decide)).mpr (by decide)

/-- The all-zero raw-word machine. -/
def zeroComputer : Computer := ⟨fun _ => 0, [], 0, fun _ => none⟩

/-- The word `addiu` with rs 0 and immediate 0x8000 (opcode 9); the raw-word
engine's immediate-type destination is `rd` = bits [15:11], here register
16. -/
def wAddIU8000 : Nat := 9 * 2 ^ 26 + 0x8000

/-- C7 counterexample: add-immediate-unsigned with immediate `0x8000` on a
zeroed machine writes `0x00008000` (the zero-extension), not the
`0xFFFF8000` the sign-extension stated by the claim would give. -/
theorem C7_addiu_counterexample :
    (zeroComputer.tryHandleInsn wAddIU8000 false).1 = .ok () ∧
    (zeroComputer.tryHandleInsn wAddIU8000 false).2.1.regs (Insn.rd wAddIU8000) = 0x8000 ∧
    (0x8000 : Nat) ≠
      (zeroComputer.ru (Insn.rs wAddIU8000) + 0xFFFF8000) % 2 ^ 32 := by decide

/-- C7 amended: in both engines, add-immediate-unsigned adds the
ZERO-extended 16-bit immediate to the source's unsigned value and is
checked, faulting with the integer-overflow error exactly when the unsigned
sum reaches 2^32; the destination receives the wrapped sum (also when the
fault is raised, as the write precedes the check). -/
theorem C7_addiu_zero_extended_checked :
    (∀ (c : Computer) (w : Nat) (ex : Bool),
      Insn.opcode w = .ok .addIU → Insn.rd w ≠ 0 →
      (((c.tryHandleInsn w ex).1 = .error .integerOverflow) ↔
        2 ^ 32 ≤ c.ru (Insn.rs w) + Insn.du w) ∧
      (c.tryHandleInsn w ex).2.1.regs (Insn.rd w) =
        (c.ru (Insn.rs w) + Insn.du w) % 2 ^ 32) ∧
    (∀ (c : Cpu) (i : ImmInsn), i.opcode = .addIU →
      (((c.tryHandleInsnImm i).1 = .error .integerOverflowException) ↔
        2 ^ 32 ≤ c.regs i.rs + i.data) ∧
      (c.tryHandleInsnImm i).2.regs i.rt = (c.regs i.rs + i.data) % 2 ^ 32) := by
  constructor
  · intro c w ex hop hrd
    by_cases hov : 4294967296 ≤ c.regs (Insn.rs w) + Insn.du w <;>
      simp [Computer.tryHandleInsn, Computer.tryHandleInsnCore, hop,
        Computer.writeChk, Computer.wu, hrd, overflowingAddU32, hov, Computer.ru]
  · intro c i hop
    by_cases hov : 4294967296 ≤ c.regs i.rs + i.data <;>
      simp [Cpu.tryHandleInsnImm, hop, Cpu.setReg, overflowingAddU32, hov]

/-- C7 witness: the amended statement instantiated at the concrete
`addiu` word with immediate 0x8000 on the zeroed machine. -/
theorem C7_addiu_zero_extended_checked_witness :
    (zeroComputer.tryHandleInsn wAddIU8000 false).2.1.regs (Insn.rd wAddIU8000) =
      (zeroComputer.ru (Insn.rs wAddIU8000) + Insn.du wAddIU8000) % 2 ^ 32 :=
  (C7_addiu_zero_extended_checked.1 zeroComputer wAddIU8000 false (by decide) (by decide)).2

theorem Computer.wu_ok_reg0 {c : Computer} {r : Fin 32} {v : Nat} {c2 : Computer}
    (h : c.wu r v = .ok c2) : c2.regs 0 = c.regs 0 := by
  unfold Computer.wu at h
  split at h
  · simp at h
  next hr =>
    simp only [Except.ok.injEq] at h
    subst h
    simp only []
    exact Function.update_noteq (fun h0 => hr h0.symm) v c.regs

theorem Computer.writeStep_reg0 (c : Computer) (ex : Bool) (r : Fin 32) (v : Nat) :
    (c.writeStep ex r v).2.1.regs 0 = c.regs 0 := by
  unfold Computer.writeStep
  split
  next e heq => rfl
  next c2 heq => exact Computer.wu_ok_reg0 heq

theorem Computer.writeChk_reg0 (c : Computer) (ex : Bool) (r : Fin 32) (v : Nat) (ov : Bool) :
    (c.writeChk ex r v ov).2.1.regs 0 = c.regs 0 := by
  unfold Computer.writeChk
  split
  next e heq => rfl
  next c2 heq =>
    split
    · exact Computer.wu_ok_reg0 heq
    · exact Computer.wu_ok_reg0 heq

theorem Computer.core_reg0 (c : Computer) (w : Nat) (ex : Bool) :
    (c.tryHandleInsnCore w ex).2.1.regs 0 = c.regs 0 := by
  unfold Computer.tryHandleInsnCore
  split <;> try split <;> try split
  all_goals
    first
      | rfl
      | apply Computer.writeStep_reg0
      | apply Computer.writeChk_reg0

theorem Computer.step_reg0 (c : Computer) (w : Nat) (ex : Bool) :
    (c.tryHandleInsn w ex).2.1.regs 0 = c.regs 0 := by
  unfold Computer.tryHandleInsn
  have h0 := Computer.core_reg0 c w ex
  split
  next e c2 ex2 heq => rw [heq] at h0; exact h0
  next c2 ex2 heq => rw [heq] at h0; exact h0

theorem Computer.runLoop_reg0 (c : Computer) (ex : Bool) :
    (c.runLoop ex).2.regs 0 = c.regs 0 := by
  induction c, ex using Computer.runLoop.induct with
  | case1 c ex h e c2 ex2 heq =>
    have h0 := Computer.step_reg0 c (c.program.get ⟨c.pc, h.1⟩) ex
    rw [Computer.runLoop]
    simp only [dif_pos h]
    split
    next e2 c3 ex3 heq2 =>
      rw [heq2] at h0
      exact h0
    next a c3 ex3 heq2 =>
      rw [heq] at heq2
      simp at heq2
  | case2 c ex h a c2 ex2 heq ih =>
    have h0 := Computer.step_reg0 c (c.program.get ⟨c.pc, h.1⟩) ex
    rw [Computer.runLoop]
    simp only [dif_pos h]
    split
    next e2 c3 ex3 heq2 =>
      rw [heq] at heq2
      simp at heq2
    next a2 c3 ex3 heq2 =>
      rw [heq] at heq2
      simp only [Prod.mk.injEq, Except.ok.injEq] at heq2
      obtain ⟨h1, h2, h3⟩ := heq2
      subst h2
      subst h3
      rw [ih]
      rw [heq] at h0
      exact h0
  | case3 c ex h =>
    rw [Computer.runLoop]
    simp only [dif_neg h]

/-- The all-zero pre-decoded machine. -/
def zeroCpu : Cpu := ⟨fun _ => 0, 0⟩

/-- The pre-decoded instruction `ori $zero, $zero, 5`. -/
def oriZeroImm : ImmInsn := ⟨.orI, 0, 0, 5⟩

/-- C1 counterexample: in the pre-decoded engine the immediate-type handler
has no zero-register guard, so `ori` with destination `rt = $zero` succeeds
and stores 5 into register 0 — the write is neither rejected with
`ZeroRegisterWrite` nor discarded, and register 0 then reads back 5. -/
theorem C1_zero_write_counterexample :
    (zeroCpu.tryHandleInsnImm oriZeroImm).1 = .ok () ∧
    (zeroCpu.tryHandleInsnImm oriZeroImm).2.regs 0 = 5 := by decide

/-- C1 amended: the hardwired-zero invariant holds in the raw-word engine
(reads of register 0 give 0 in every state reachable from a zero-register-0
state, and any instruction whose destination field is register 0 faults with
`RegMutZero` leaving the state unchanged — register-type non-syscall functs
and all immediate-type opcodes), and in the pre-decoded engine for
register-type instructions (up-front `DstRegZeroError`); the pre-decoded
engine's immediate-type handler is exempt, as it writes `rt` unchecked. -/
theorem C1_hardwired_zero_amended :
    (∀ c : Computer, c.regs 0 = 0 → c.ru 0 = 0 ∧ c.ri 0 = 0) ∧
    (∀ (c : Computer) (w : Nat) (ex : Bool), (c.tryHandleInsn w ex).2.1.regs 0 = c.regs 0) ∧
    (∀ c : Computer, c.run.2.regs 0 = c.regs 0) ∧
    (∀ (c : Computer) (w : Nat) (ex : Bool) (f : Funct),
      Insn.opcode w = .ok .reg → Insn.funct w = .ok f → f ≠ .syscall → Insn.rd w = 0 →
      (c.tryHandleInsn w ex).1 = .error .regMutZero ∧ (c.tryHandleInsn w ex).2.1 = c) ∧
    (∀ (c : Computer) (w : Nat) (ex : Bool) (op : Opcode),
      Insn.opcode w = .ok op → op ≠ .reg → Insn.rd w = 0 →
      (c.tryHandleInsn w ex).1 = .error .regMutZero ∧ (c.tryHandleInsn w ex).2.1 = c) ∧
    (∀ (c : Cpu) (i : RegInsn), i.rd = 0 →
      c.tryHandleInsnReg i = (.error .dstRegZeroError, c)) := by
  refine ⟨?_, ?_, ?_, ?_, ?_, ?_⟩
  · intro c h
    refine ⟨h, ?_⟩
    simp [Computer.ri, h, toI32]
  · exact Computer.step_reg0
  · intro c
    exact Computer.runLoop_reg0 c false
  · intro c w ex f hop hf hns h0
    cases f
    case syscall => exact absurd rfl hns
    all_goals
      simp [Computer.tryHandleInsn, Computer.tryHandleInsnCore, hop, hf,
        Computer.writeStep, Computer.writeChk, Computer.wu, h0]
  · intro c w ex op hop hnr h0
    cases op
    case reg => exact absurd rfl hnr
    all_goals
      simp [Computer.tryHandleInsn, Computer.tryHandleInsnCore, hop,
        Computer.writeStep, Computer.writeChk, Computer.wu, h0]
  · intro c i h
    simp [Cpu.tryHandleInsnReg, h]

/-- C1 witness: the zero-destination fault, instantiated at the word 0
(`sll $zero, $zero, 0`) on the zeroed raw-word machine. -/
theorem C1_hardwired_zero_amended_witness :
    (zeroComputer.tryHandleInsn 0 false).1 = .error .regMutZero ∧
      (zeroComputer.tryHandleInsn 0 false).2.1 = zeroComputer :=
  C1_hardwired_zero_amended.2.2.2.1 zeroComputer 0 false .sll
    (by decide) (by decide) (by decide) (by decide)

theorem Computer.wu_ok_other {c : Computer} {r : Fin 32} {v : Nat} {c2 : Computer}
    (h : c.wu r v = .ok c2) :
    ∀ r2 : Fin 32, r2 ≠ r → c2.regs r2 = c.regs r2 := by
  unfold Computer.wu at h
  split at h
  · simp at h
  · simp only [Except.ok.injEq] at h
    subst h
    intro r2 hr
    exact Function.update_noteq hr v c.regs

theorem Computer.writeStep_err {c : Computer} {ex : Bool} {r : Fin 32} {v : Nat}
    {e : InsnError} {c2 : Computer} {ex2 : Bool}
    (h : c.writeStep ex r v = (.error e, c2, ex2)) : c2 = c := by
  unfold Computer.writeStep at h
  split at h
  next e2 heq => cases h; rfl
  next c3 heq => simp at h

theorem Computer.writeChk_err {c : Computer} {ex : Bool} {r : Fin 32} {v : Nat} {ov : Bool}
    {e : InsnError} {c2 : Computer} {ex2 : Bool}
    (h : c.writeChk ex r v ov = (.error e, c2, ex2)) :
    (e ≠ .integerOverflow → c2 = c) ∧ ∀ r2 : Fin 32, r2 ≠ r → c2.regs r2 = c.regs r2 := by
  unfold Computer.writeChk at h
  split at h
  next e2 heq =>
    cases h
    exact ⟨fun _ => rfl, fun r2 hr => rfl⟩
  next c3 heq =>
    split at h
    · cases h
      exact ⟨fun hne => absurd rfl hne, Computer.wu_ok_other heq⟩
    · simp at h

theorem Computer.core_err {c : Computer} {w : Nat} {ex : Bool}
    {e : InsnError} {c2 : Computer} {ex2 : Bool}
    (h : c.tryHandleInsnCore w ex = (.error e, c2, ex2)) :
    (e ≠ .integerOverflow → c2 = c) ∧ ∀ r : Fin 32, r ≠ Insn.rd w → c2.regs r = c.regs r := by
  unfold Computer.tryHandleInsnCore at h
  split at h <;> try split at h <;> try split at h
  all_goals
    first
      | (cases h; exact ⟨fun _ => rfl, fun r hr => rfl⟩)
      | (rw [Computer.writeStep_err h]; exact ⟨fun _ => rfl, fun r hr => rfl⟩)
      | exact Computer.writeChk_err h
      | simp at h

/-- C2 counterexample: a checked `add` that overflows returns the
`IntegerOverflow` fault and yet has already written the wrapped sum into the
destination — the machine state visibly differs from the pre-instruction
state even though a fault was returned. -/
theorem C2_fault_atomicity_counterexample :
    (overflowComputer.tryHandleInsn wAddT2 false).1 = .error .integerOverflow ∧
    (overflowComputer.tryHandleInsn wAddT2 false).2.1.regs 10 = 0x80000000 ∧
    overflowComputer.regs 10 = 0 := by decide

/-- C2 amended: when an instruction faults, the program counter, program and
memory are unchanged; for every fault other than `IntegerOverflow` the whole
machine state is unchanged; an `IntegerOverflow` fault may leave the wrapped
result in the instruction's destination register, every other register being
unchanged. -/
theorem C2_fault_atomicity_amended :
    ∀ (c : Computer) (w : Nat) (ex : Bool) (e : InsnError) (c2 : Computer) (ex2 : Bool),
      c.tryHandleInsn w ex = (.error e, c2, ex2) →
      c2.pc = c.pc ∧ c2.program = c.program ∧ c2.mem = c.mem ∧
      (e ≠ .integerOverflow → c2 = c) ∧
      ∀ r : Fin 32, r ≠ Insn.rd w → c2.regs r = c.regs r := by
  intro c w ex e c2 ex2 h
  unfold Computer.tryHandleInsn at h
  split at h
  next e3 c3 ex3 heq =>
    cases h
    obtain ⟨h1, h2, h3⟩ := Computer.core_frame heq
    obtain ⟨h4, h5⟩ := Computer.core_err heq
    exact ⟨h1, h2, h3, h4, h5⟩
  next c3 ex3 heq => simp at h

/-- C2 witness: the amended statement at the concrete overflowing `add`:
pc unchanged and the non-destination register 9 unchanged. -/
theorem C2_fault_atomicity_amended_witness :
    (overflowComputer.tryHandleInsn wAddT2 false).2.1.pc = overflowComputer.pc ∧
    (overflowComputer.tryHandleInsn wAddT2 false).2.1.regs 9 = overflowComputer.regs 9 := by
  have h := C2_fault_atomicity_amended overflowComputer wAddT2 false .integerOverflow
    ((overflowComputer.tryHandleInsn wAddT2 false).2.1)
    ((overflowComputer.tryHandleInsn wAddT2 false).2.2) rfl
  exact ⟨h.1, h.2.2.2.2 9 (by decide)⟩

theorem Computer.step_mem (c : Computer) (w : Nat) (ex : Bool) :
    (c.tryHandleInsn w ex).2.1.mem = c.mem := by
  rcases hcore : c.tryHandleInsnCore w ex with ⟨r, c2, ex2⟩
  have hf := Computer.core_frame hcore
  unfold Computer.tryHandleInsn
  rw [hcore]
  cases r <;> simp [hf.2.2]

theorem Computer.runLoop_mem (c : Computer) (ex : Bool) :
    (c.runLoop ex).2.mem = c.mem := by
  induction c, ex using Computer.runLoop.induct with
  | case1 c ex h e c2 ex2 heq =>
    have h0 := Computer.step_mem c (c.program.get ⟨c.pc, h.1⟩) ex
    rw [Computer.runLoop]
    simp only [dif_pos h]
    split
    next e2 c3 ex3 heq2 =>
      rw [heq2] at h0
      exact h0
    next a c3 ex3 heq2 =>
      rw [heq] at heq2
      simp at heq2
  | case2 c ex h a c2 ex2 heq ih =>
    have h0 := Computer.step_mem c (c.program.get ⟨c.pc, h.1⟩) ex
    rw [Computer.runLoop]
    simp only [dif_pos h]
    split
    next e2 c3 ex3 heq2 =>
      rw [heq] at heq2
      simp at heq2
    next a2 c3 ex3 heq2 =>
      rw [heq] at heq2
      simp only [Prod.mk.injEq, Except.ok.injEq] at heq2
      obtain ⟨h1, h2, h3⟩ := heq2
      subst h2
      subst h3
      rw [ih]
      rw [heq] at h0
      exact h0
  | case3 c ex h =>
    rw [Computer.runLoop]
    simp only [dif_neg h]

/-- C10: no implemented instruction touches the sparse memory map — a single
step leaves it identical whatever the outcome, and so does a whole run,
successful or faulted. -/
theorem C10_memory_inert :
    (∀ (c : Computer) (w : Nat) (ex : Bool), (c.tryHandleInsn w ex).2.1.mem = c.mem) ∧
    ∀ c : Computer, c.run.2.mem = c.mem := by
  refine ⟨Computer.step_mem, fun c => ?_⟩
  exact Computer.runLoop_mem c false

/-- The shift expression of the `SllV` arm (`emulator.rs` line 27:
`self.ru(insn.rt()) << self.ru(insn.rs())`) under debug-mode Rust semantics:
the whole register value is the shift amount, and an amount of 32 or more
panics instead of being masked. -/
def sllvResultDebug (c : Computer) (w : Nat) : Option Nat :=
  shlU32Checked (c.ru (Insn.rt w)) (c.ru (Insn.rs w))

/-- Machine state for the C8 instance: `$t0` (reg 8, the shift register)
holds 32, `$t1` (reg 9) holds 1. -/
def shiftComputer : Computer :=
  ⟨fun i => if i = 8 then 32 else if i = 9 then 1 else 0, [], 0, fun _ => none⟩

/-- The word `sllv $t2, $t1, $t0`: opcode 0, rs 8, rt 9, rd 10, funct 4. -/
def wSllvT2 : Nat := 8 * 2 ^ 21 + 9 * 2 ^ 16 + 10 * 2 ^ 11 + 4

/-- C8: the `SllV` arm applies the full shift-register value to `<<`; with
the shift register holding 32 the debug-mode shift is undefined (Rust
panics), whereas the claimed low-5-bit masking would yield the well-defined
result `1 <<< 0 = 1` (which is what release-mode Rust's masked shift
produces). -/
theorem C8_variable_shift_unmasked_bug :
    sllvResultDebug shiftComputer wSllvT2 = none ∧
    shlU32Checked (shiftComputer.ru (Insn.rt wSllvT2))
      (shiftComputer.ru (Insn.rs wSllvT2) % 32) = some 1 := by decide

theorem Computer.writeStep_ex (c : Computer) (ex : Bool) (r : Fin 32) (v : Nat) :
    (c.writeStep ex r v).2.2 = ex := by
  unfold Computer.writeStep
  split <;> rfl

theorem Computer.writeChk_ex (c : Computer) (ex : Bool) (r : Fin 32) (v : Nat) (ov : Bool) :
    (c.writeChk ex r v ov).2.2 = ex := by
  unfold Computer.writeChk
  split
  · rfl
  · split <;> rfl

theorem syscallCodeOfNat_exit {n : Nat} (h : syscallCodeOfNat n = some .exit) : n = 10 := by
  unfold syscallCodeOfNat at h
  split at h
  · assumption
  · simp at h

theorem Computer.core_sets_exit {c : Computer} {w : Nat} {r : Except InsnError Unit}
    {c2 : Computer} (h : c.tryHandleInsnCore w false = (r, c2, true)) :
    Insn.opcode w = .ok .reg ∧ Insn.funct w = .ok .syscall ∧ c.ru regV0 = 10 := by
  unfold Computer.tryHandleInsnCore at h
  cases hop : Insn.opcode w with
  | error e => simp only [hop] at h; simp at h
  | ok op =>
    simp only [hop] at h
    cases op
    case reg =>
      cases hf : Insn.funct w with
      | error e => simp only [hf] at h; simp at h
      | ok f =>
        simp only [hf] at h
        cases f
        case syscall =>
          cases hsc : syscallCodeOfNat (c.ru regV0) with
          | none => simp only [hsc] at h; simp at h
          | some sc =>
            simp only [hsc] at h
            cases sc
            exact ⟨rfl, rfl, syscallCodeOfNat_exit hsc⟩
        all_goals
          exfalso
          have hx := congrArg (fun p => p.2.2) h
          simp [Computer.writeStep_ex, Computer.writeChk_ex] at hx
    all_goals
      exfalso
      have hx := congrArg (fun p => p.2.2) h
      simp [Computer.writeStep_ex, Computer.writeChk_ex] at hx

theorem Computer.step_sets_exit {c : Computer} {w : Nat} {c2 : Computer}
    (h : c.tryHandleInsn w false = (.ok (), c2, true)) :
    Insn.opcode w = .ok .reg ∧ Insn.funct w = .ok .syscall ∧ c.ru regV0 = 10 := by
  unfold Computer.tryHandleInsn at h
  split at h
  next e c3 ex3 heq => simp at h
  next c3 ex3 heq =>
    have hx := congrArg (fun p => p.2.2) h
    simp only [] at hx
    subst hx
    exact Computer.core_sets_exit heq

theorem Computer.step_exit_syscall {c : Computer} {w : Nat} (ex : Bool)
    (hop : Insn.opcode w = .ok .reg) (hf : Insn.funct w = .ok .syscall)
    (hv : c.ru regV0 = 10) :
    c.tryHandleInsn w ex = (.ok (), { c with pc := c.pc + 1 }, true) := by
  simp [Computer.tryHandleInsn, Computer.tryHandleInsnCore, hop, hf,
    syscallCodeOfNat, hv]

theorem Computer.step_unsupported_syscall {c : Computer} {w : Nat} {v : Nat} (ex : Bool)
    (hop : Insn.opcode w = .ok .reg) (hf : Insn.funct w = .ok .syscall)
    (hv : c.ru regV0 = v) (hne : v ≠ 10) :
    c.tryHandleInsn w ex = (.error (.unsupportedSyscall v), c, ex) := by
  subst hv
  simp [Computer.tryHandleInsn, Computer.tryHandleInsnCore, hop, hf,
    syscallCodeOfNat, hne]

/-- The fetched word executes an exit syscall in state `d`: register-type
opcode, syscall funct, and `$v0 = 10`. -/
def exitSyscallAt (d : Computer) : Prop :=
  Insn.opcode (d.program.getD d.pc 0) = .ok .reg ∧
    Insn.funct (d.program.getD d.pc 0) = .ok .syscall ∧ d.ru regV0 = 10

theorem Computer.runLoop_true (c : Computer) : c.runLoop true = (.ok (), c) := by
  rw [Computer.runLoop]
  rw [dif_neg]
  simp

theorem Computer.run_step (c : Computer) (hpc : c.pc < c.program.length) :
    c.run = (match c.tryHandleInsn (c.program.get ⟨c.pc, hpc⟩) false with
      | (.error e, c2, _) => (.error e, c2)
      | (.ok _, c2, ex2) => c2.runLoop ex2) := by
  unfold Computer.run
  rw [Computer.runLoop]
  rw [dif_pos ⟨hpc, rfl⟩]
  split
  next e c2 ex2 heq => rw [heq]
  next a c2 ex2 heq => rw [heq]

/-- Chains of successful, non-halting loop iterations: `Steps c e` holds when
the driver loop, started at `c`, passes through `e` after finitely many
fetch-execute steps that each returned `Ok` without raising the exit flag. -/
inductive Computer.Steps : Computer → Computer → Prop where
  | refl (c : Computer) : Computer.Steps c c
  | head {c mid e : Computer} (h : c.pc < c.program.length)
      (hstep : c.tryHandleInsn (c.program.get ⟨c.pc, h⟩) false = (.ok (), mid, false))
      (rest : Computer.Steps mid e) : Computer.Steps c e

theorem get_eq_getD {l : List Nat} {n : Nat} (h : n < l.length) :
    l.get ⟨n, h⟩ = l.getD n 0 := by
  rw [List.getD_eq_getElem l 0 h]
  simp

theorem Computer.run_exit_at (c : Computer) (hpc : c.pc < c.program.length)
    (ho : Insn.opcode (c.program.get ⟨c.pc, hpc⟩) = .ok .reg)
    (hf : Insn.funct (c.program.get ⟨c.pc, hpc⟩) = .ok .syscall)
    (hv : c.ru regV0 = 10) :
    c.run = (.ok (), ⟨c.regs, c.program, c.pc + 1, c.mem⟩) := by
  rw [Computer.run_step c hpc]
  rw [Computer.step_exit_syscall false ho hf hv]
  exact Computer.runLoop_true _

theorem Computer.runLoop_ok_reaches {c2 : Computer} (c : Computer) (ex : Bool)
    (h : c.runLoop ex = (.ok (), c2)) (hex : ex = false) :
    (Computer.Steps c c2 ∧ c2.program.length ≤ c2.pc) ∨
      ∃ d : Computer, Computer.Steps c d ∧ d.pc < d.program.length ∧ exitSyscallAt d ∧
        c2 = ⟨d.regs, d.program, d.pc + 1, d.mem⟩ := by
  revert h hex
  induction c, ex using Computer.runLoop.induct with
  | case1 c ex hc e c0 ex0 heq =>
    intro h hex
    rw [Computer.runLoop] at h
    simp only [dif_pos hc] at h
    split at h
    next e2 c3 ex3 heq2 => simp at h
    next a2 c3 ex3 heq2 =>
      rw [heq] at heq2
      simp at heq2
  | case2 c ex hc a c0 ex0 heq ih =>
    intro h hex
    rw [Computer.runLoop] at h
    simp only [dif_pos hc] at h
    split at h
    next e2 c3 ex3 heq2 =>
      rw [heq] at heq2
      simp at heq2
    next a2 c3 ex3 heq2 =>
      rw [heq] at heq2
      simp only [Prod.mk.injEq, Except.ok.injEq] at heq2
      obtain ⟨h1, h2, h3⟩ := heq2
      subst h2
      subst h3
      subst hex
      cases a
      by_cases hex0 : ex0 = false
      · subst hex0
        rcases ih h rfl with ⟨hsteps, hlen⟩ | ⟨d, hsteps, hd, hexit, hc2⟩
        · exact Or.inl ⟨Computer.Steps.head hc.1 heq hsteps, hlen⟩
        · exact Or.inr ⟨d, Computer.Steps.head hc.1 heq hsteps, hd, hexit, hc2⟩
      · have hex0t : ex0 = true := by
          cases ex0
          · exact absurd rfl hex0
          · rfl
        subst hex0t
        obtain ⟨ho, hf, hv⟩ := Computer.step_sets_exit heq
        have hstep2 := Computer.step_exit_syscall (c := c)
          (w := c.program.get ⟨c.pc, hc.1⟩) false ho hf hv
        rw [heq] at hstep2
        have hc0 : c0 = ⟨c.regs, c.program, c.pc + 1, c.mem⟩ := by
          simpa using hstep2
        rw [Computer.runLoop_true] at h
        have hc2 : c0 = c2 := by
          simpa using h
        refine Or.inr ⟨c, .refl c, hc.1, ⟨?_, ?_, hv⟩, by rw [← hc2, hc0]⟩
        · rw [← get_eq_getD hc.1]
          exact ho
        · rw [← get_eq_getD hc.1]
          exact hf
  | case3 c ex hc =>
    intro h hex
    rw [Computer.runLoop] at h
    rw [dif_neg hc] at h
    have h2 : c = c2 := by
      have hx := congrArg (fun p => p.2) h
      simpa using hx
    subst h2
    have hlen : ¬ c.pc < c.program.length := fun hlt => hc ⟨hlt, hex⟩
    exact Or.inl ⟨.refl c, by omega⟩

theorem Computer.steps_halt_run {c d : Computer} (hs : Computer.Steps c d)
    (hd : d.program.length ≤ d.pc) : c.run = (.ok (), d) := by
  induction hs with
  | refl c =>
    unfold Computer.run
    rw [Computer.runLoop]
    rw [dif_neg fun hcc => absurd hcc.1 (Nat.not_lt.mpr hd)]
  | head h hstep rest ih =>
    rw [Computer.run_step _ h]
    rw [hstep]
    exact ih hd

theorem Computer.steps_exit_run {c d : Computer} (hs : Computer.Steps c d)
    (hd : d.pc < d.program.length) (hexit : exitSyscallAt d) :
    c.run = (.ok (), ⟨d.regs, d.program, d.pc + 1, d.mem⟩) := by
  induction hs with
  | refl c =>
    obtain ⟨ho, hf, hv⟩ := hexit
    refine Computer.run_exit_at c hd ?_ ?_ hv
    · rw [get_eq_getD hd]
      exact ho
    · rw [get_eq_getD hd]
      exact hf
  | head h hstep rest ih =>
    rw [Computer.run_step _ h]
    rw [hstep]
    exact ih hd hexit

/-- C6: `run` returns `Ok` exactly by clean termination — (1) when the
program counter is already past the end it returns at once with the state
untouched (implicit halt); (2) any `Ok` run either consists of non-halting
steps from the initial state to the final state, whose counter is past the
end, or reaches — by such steps — a state that executes a syscall with
`$v0 = 10`, the run ending right there with just its counter advanced; (3)
an exit syscall at the counter makes the whole run return `Ok` (with just
the counter advanced); (4) a syscall with any other `$v0 = v` makes the run
return `UnsupportedSyscall v`; (5) any faulting instruction stops the loop
at once with that fault; conversely (6) reaching a state with the counter
past the end, or (7) reaching a state that executes an exit syscall, makes
the run return `Ok` with exactly that final state. -/
theorem C6_run_termination :
    (∀ c : Computer, c.program.length ≤ c.pc → c.run = (.ok (), c)) ∧
    (∀ c c2 : Computer, c.run = (.ok (), c2) →
      (Computer.Steps c c2 ∧ c2.program.length ≤ c2.pc) ∨
        ∃ d : Computer, Computer.Steps c d ∧ d.pc < d.program.length ∧ exitSyscallAt d ∧
          c2 = ⟨d.regs, d.program, d.pc + 1, d.mem⟩) ∧
    (∀ (c : Computer) (hpc : c.pc < c.program.length),
      Insn.opcode (c.program.get ⟨c.pc, hpc⟩) = .ok .reg →
      Insn.funct (c.program.get ⟨c.pc, hpc⟩) = .ok .syscall →
      c.ru regV0 = 10 →
      c.run = (.ok (), { c with pc := c.pc + 1 })) ∧
    (∀ (c : Computer) (v : Nat) (hpc : c.pc < c.program.length),
      Insn.opcode (c.program.get ⟨c.pc, hpc⟩) = .ok .reg →
      Insn.funct (c.program.get ⟨c.pc, hpc⟩) = .ok .syscall →
      c.ru regV0 = v → v ≠ 10 →
      c.run = (.error (.unsupportedSyscall v), c)) ∧
    (∀ (c : Computer) (e : InsnError) (c2 : Computer) (ex2 : Bool)
      (hpc : c.pc < c.program.length),
      c.tryHandleInsn (c.program.get ⟨c.pc, hpc⟩) false = (.error e, c2, ex2) →
      c.run = (.error e, c2)) ∧
    (∀ c d : Computer, Computer.Steps c d → d.program.length ≤ d.pc →
      c.run = (.ok (), d)) ∧
    (∀ c d : Computer, Computer.Steps c d → d.pc < d.program.length → exitSyscallAt d →
      c.run = (.ok (), ⟨d.regs, d.program, d.pc + 1, d.mem⟩)) := by
  refine ⟨?_, ?_, ?_, ?_, ?_, ?_, ?_⟩
  · intro c h
    unfold Computer.run
    rw [Computer.runLoop]
    rw [dif_neg fun hc => absurd hc.1 (Nat.not_lt.mpr h)]
  · intro c c2 h
    exact Computer.runLoop_ok_reaches c false h rfl
  · intro c hpc ho hf hv
    rw [Computer.run_step c hpc]
    rw [Computer.step_exit_syscall false ho hf hv]
    exact Computer.runLoop_true _
  · intro c v hpc ho hf hv hne
    rw [Computer.run_step c hpc]
    rw [Computer.step_unsupported_syscall false ho hf hv hne]
  · intro c e c2 ex2 hpc h
    rw [Computer.run_step c hpc]
    rw [h]
  · intro c d hs hd
    exact Computer.steps_halt_run hs hd
  · intro c d hs hd hexit
    exact Computer.steps_exit_run hs hd hexit

/-- C6 witness: the implicit-halt conjunct at the empty program. -/
theorem C6_run_termination_witness : zeroComputer.run = (.ok (), zeroComputer) :=
  C6_run_termination.1 zeroComputer (by decide)

/-- The register-type operations shared by the two engines: every `Funct`
except `Syscall`, which has no counterpart in `RegFunc`. -/
def functToRegFunc : Funct → Option RegFunc
  | .sll => some .sll
  | .sllV => some .sllV
  | .srl => some .srl
  | .srlV => some .srlV
  | .sra => some .sra
  | .sraV => some .sraV
  | .syscall => none
  | .add => some .add
  | .addU => some .addU
  | .sub => some .sub
  | .subU => some .subU
  | .and => some .and
  | .or => some .or
  | .xor => some .xor
  | .nor => some .nor

theorem Insn.shamt_mod (w : Nat) : Insn.shamt w % 32 = Insn.shamt w :=
  Nat.mod_eq_of_lt (Nat.mod_lt _ (by decide))

/-- C9: on every register-type instruction the two engines agree — same
word-extracted fields fed to the pre-decoded engine give the same final
register file, and the outcomes correspond (`Ok` to `Ok`, `RegMutZero` to
`DstRegZeroError`, `IntegerOverflow` to `IntegerOverflowException`). -/
theorem C9_engine_equivalence :
    ∀ (regs : Fin 32 → Nat) (prog : List Nat) (pcC : Nat) (mem : Nat → Option Nat)
      (pcP : Nat) (w : Nat) (ex : Bool) (f : Funct) (rf : RegFunc),
      Insn.opcode w = .ok .reg → Insn.funct w = .ok f → functToRegFunc f = some rf →
      ((Computer.tryHandleInsn ⟨regs, prog, pcC, mem⟩ w ex).2.1.regs =
        (Cpu.tryHandleInsnReg ⟨regs, pcP⟩
          ⟨Insn.rs w, Insn.rt w, Insn.rd w, Insn.shamt w, rf⟩).2.regs) ∧
      (((Computer.tryHandleInsn ⟨regs, prog, pcC, mem⟩ w ex).1 = .ok ()) ↔
        ((Cpu.tryHandleInsnReg ⟨regs, pcP⟩
          ⟨Insn.rs w, Insn.rt w, Insn.rd w, Insn.shamt w, rf⟩).1 = .ok ())) ∧
      (((Computer.tryHandleInsn ⟨regs, prog, pcC, mem⟩ w ex).1 = .error .regMutZero) ↔
        ((Cpu.tryHandleInsnReg ⟨regs, pcP⟩
          ⟨Insn.rs w, Insn.rt w, Insn.rd w, Insn.shamt w, rf⟩).1 = .error .dstRegZeroError)) ∧
      (((Computer.tryHandleInsn ⟨regs, prog, pcC, mem⟩ w ex).1 = .error .integerOverflow) ↔
        ((Cpu.tryHandleInsnReg ⟨regs, pcP⟩
          ⟨Insn.rs w, Insn.rt w, Insn.rd w, Insn.shamt w, rf⟩).1 =
            .error .integerOverflowException)) := by
  intro regs prog pcC mem pcP w ex f rf hop hf hmap
  cases f
  case syscall => simp [functToRegFunc] at hmap
  all_goals
    simp only [functToRegFunc, Option.some.injEq] at hmap
  all_goals subst hmap
  all_goals
    by_cases hrd : Insn.rd w = 0
  all_goals
    first
      | (simp [Computer.tryHandleInsn, Computer.tryHandleInsnCore, hop, hf,
          Computer.writeStep, Computer.writeChk, Computer.wu, hrd,
          Cpu.tryHandleInsnReg, Cpu.setReg, Computer.ru, Computer.ri,
          overflowingAddI32, overflowingSubI32, overflowingAddU32,
          overflowingSubU32, Insn.shamt_mod]
         done)
      | (simp [Computer.tryHandleInsn, Computer.tryHandleInsnCore, hop, hf,
          Computer.writeStep, Computer.writeChk, Computer.wu, hrd,
          Cpu.tryHandleInsnReg, Cpu.setReg, Computer.ru, Computer.ri,
          overflowingAddI32, overflowingSubI32, overflowingAddU32,
          overflowingSubU32, Insn.shamt_mod]
         split_ifs with hP <;> simp [hP])

/-- C9 witness: the register-file agreement at a concrete `sllv` word on the
shift-test state, all hypotheses discharged by evaluation. -/
theorem C9_engine_equivalence_witness :
    (Computer.tryHandleInsn ⟨shiftComputer.regs, [], 0, shiftComputer.mem⟩
        wSllvT2 false).2.1.regs =
      (Cpu.tryHandleInsnReg ⟨shiftComputer.regs, 0⟩
        ⟨Insn.rs wSllvT2, Insn.rt wSllvT2, Insn.rd wSllvT2, Insn.shamt wSllvT2,
          .sllV⟩).2.regs :=
  (C9_engine_equivalence shiftComputer.regs [] 0 shiftComputer.mem 0 wSllvT2 false
    .sllV .sllV (by decide) (by decide) (by decide)).1
